import Mathlib

/-!
Verification of the quote-rendering program (`update_quote.py`).

Strings are modelled as `List Char` (`Str`).  The two core functions,
`wrap_text` and `generate_quote_svg`, are shallow embeddings of the Python
source: `wrap_text` mirrors the greedy line-fill loop word for word, and
`generate_quote_svg` mirrors the construction of the `svg_parts` list and
the final newline join.
-/

set_option maxHeartbeats 1000000

set_option maxRecDepth 100000

namespace UpdateQuote

/-- Strings are modelled as lists of characters. -/
abbrev Str := List Char

/-- Whitespace characters recognised by Python's `str.split()` (ASCII range). -/
def isWS (c : Char) : Bool :=
  c == ' ' || c == '\t' || c == '\n' || c == '\r' || c == '\x0b' || c == '\x0c'

/-- Accumulator pass of `str.split()`: `acc` is the word currently being read. -/
def wordsAux : Str → Str → List Str
  | [], acc => if acc.isEmpty then [] else [acc]
  | c :: cs, acc =>
    if isWS c then (if acc.isEmpty then [] else [acc]) ++ wordsAux cs []
    else wordsAux cs (acc ++ [c])

/-- Python's `text.split()`: whitespace-delimited words, empty tokens dropped. -/
def pySplit (s : Str) : List Str := wordsAux s []

/-- Python's `sep.join(parts)`. -/
def joinSep (sep : Str) : List Str → Str
  | [] => []
  | [w] => w
  | w :: x :: ws => w ++ sep ++ joinSep sep (x :: ws)

/-- The loop of `wrap_text` (src/update_quote.py lines 76-90): state is
`(lines, current_line, current_length)`; the first argument is the word list
still to process. -/
def wrapAux (max_length : Int) : List Str → List Str → List Str → Nat → List Str
  | [], lines, current_line, _ =>
    if current_line.isEmpty then lines else lines ++ [joinSep [' '] current_line]
  | word :: ws, lines, current_line, current_length =>
    let word_length := word.length + (if current_line.isEmpty then 0 else 1)
    if (current_length : Int) + word_length ≤ max_length then
      wrapAux max_length ws lines (current_line ++ [word]) (current_length + word_length)
    else
      if current_line.isEmpty then
        wrapAux max_length ws lines [word] word.length
      else
        wrapAux max_length ws (lines ++ [joinSep [' '] current_line]) [word] word.length

/-- `wrap_text` (src/update_quote.py lines 55-90). -/
def wrap_text (text : Str) (max_length : Int) : List Str :=
  wrapAux max_length (pySplit text) [] [] 0

def MAX_LINE_LENGTH : Int := 80

def SVG_WIDTH : Nat := 700

def SVG_LINE_HEIGHT : Nat := 20

def SVG_PADDING : Nat := 20

def SVG_QUOTE_FONT_SIZE : Nat := 16

def SVG_AUTHOR_FONT_SIZE : Nat := 14

/-- Decimal rendering of a natural number, as Python's f-string does. -/
def natStr (n : Nat) : Str := (Nat.repr n).data

/-- The text element emitted for one wrapped quote line
(src/update_quote.py lines 120-125). -/
def quoteLineElem (y : Nat) (line : Str) : Str :=
  "    <text x=\"50%\" y=\"".data ++ natStr y
    ++ "\" font-family=\"'Segoe UI', 'Helvetica', 'Arial', sans-serif\" font-size=\"".data
    ++ natStr SVG_QUOTE_FONT_SIZE
    ++ "\" fill=\"#586069\" text-anchor=\"middle\" font-style=\"italic\">\"".data
    ++ line ++ "\"</text>".data

/-- The attribution text element (src/update_quote.py lines 128-133). -/
def authorElem (y : Nat) (author : Str) : Str :=
  "    <text x=\"50%\" y=\"".data ++ natStr y
    ++ "\" font-family=\"'Segoe UI', 'Helvetica', 'Arial', sans-serif\" font-size=\"".data
    ++ natStr SVG_AUTHOR_FONT_SIZE
    ++ "\" fill=\"#6a737d\" text-anchor=\"middle\">— ".data
    ++ author ++ "</text>".data

/-- The `for line in lines` loop (src/update_quote.py lines 118-126):
returns the emitted elements and the final `y_offset`. -/
def quoteLoop : Nat → List Str → List Str × Nat
  | y_offset, [] => ([], y_offset)
  | y_offset, line :: ls =>
    let rest := quoteLoop (y_offset + SVG_LINE_HEIGHT) ls
    (quoteLineElem y_offset line :: rest.1, rest.2)

/-- The `svg_parts` list built by `generate_quote_svg`
(src/update_quote.py lines 109-134). -/
def svg_parts (quote_text author : Str) : List Str :=
  let lines := wrap_text quote_text MAX_LINE_LENGTH
  let height := lines.length * SVG_LINE_HEIGHT + 60 + SVG_PADDING * 2
  let header : List Str :=
    [ "<svg width=\"".data ++ natStr SVG_WIDTH ++ "\" height=\"".data ++ natStr height
        ++ "\" xmlns=\"http://www.w3.org/2000/svg\">".data,
      "  <rect width=\"".data ++ natStr SVG_WIDTH ++ "\" height=\"".data ++ natStr height
        ++ "\" fill=\"none\"/>".data,
      "  <g>".data ]
  let loop := quoteLoop (SVG_PADDING + 25) lines
  header ++ loop.1 ++ [authorElem (loop.2 + 20) author]
    ++ ["  </g>".data, "</svg>".data]

/-- `generate_quote_svg` (src/update_quote.py lines 93-136):
the parts joined by newlines. -/
def generate_quote_svg (quote_text author : Str) : Str :=
  joinSep ['\n'] (svg_parts quote_text author)

/-- Boolean prefix test on character lists. -/
def startsWith : Str → Str → Bool
  | [], _ => true
  | _ :: _, [] => false
  | p :: ps, c :: cs => p == c && startsWith ps cs

/-- Boolean substring test on character lists. -/
def containsStr : Str → Str → Bool
  | pat, [] => pat.isEmpty
  | pat, c :: cs => startsWith pat (c :: cs) || containsStr pat cs

/-- Recognises the text elements among the SVG parts: exactly the quote-line
and attribution rows start with four spaces and an opening text tag. -/
def isTextElem (p : Str) : Bool := startsWith ("    <text ").data p

/-- A word as `str.split()` produces it: non-empty, no whitespace characters. -/
def cleanWord (w : Str) : Prop := w ≠ [] ∧ ∀ c ∈ w, isWS c = false

lemma joinSep_append_singleton (sep : Str) :
    ∀ (cur : List Str) (w : Str),
      joinSep sep (cur ++ [w]) = if cur.isEmpty then w else joinSep sep cur ++ sep ++ w
  | [], w => rfl
  | [x], w => rfl
  | x :: y :: rest, w => by
    have ih := joinSep_append_singleton sep (y :: rest) w
    simp only [List.isEmpty_cons, Bool.false_eq_true, if_false] at ih
    simp only [List.cons_append, List.isEmpty_cons, Bool.false_eq_true, if_false]
    show x ++ sep ++ joinSep sep (y :: (rest ++ [w])) = _
    rw [show y :: (rest ++ [w]) = (y :: rest) ++ [w] from rfl, ih]
    simp [List.append_assoc, joinSep]

lemma joinSep_length_append (cur : List Str) (w : Str) :
    (joinSep [' '] (cur ++ [w])).length
      = (joinSep [' '] cur).length + (w.length + if cur.isEmpty then 0 else 1) := by
  rw [joinSep_append_singleton]
  cases cur with
  | nil => simp [joinSep]
  | cons x rest =>
    simp only [List.isEmpty_cons, Bool.false_eq_true, if_false, List.length_append,
      List.length_cons, List.length_nil]
    omega

lemma wrapAux_nil_words (m : Int) (lines cur : List Str) (len : Nat) :
    wrapAux m [] lines cur len
      = if cur.isEmpty then lines else lines ++ [joinSep [' '] cur] := rfl

lemma wrapAux_cons_empty (m : Int) (word : Str) (ws lines : List Str) (len : Nat) :
    wrapAux m (word :: ws) lines [] len
      = if (len : Int) + word.length ≤ m then
          wrapAux m ws lines [word] (len + word.length)
        else
          wrapAux m ws lines [word] word.length := by
  simp [wrapAux]

lemma wrapAux_cons_nonempty (m : Int) (word c : Str) (ws lines : List Str)
    (cs : List Str) (len : Nat) :
    wrapAux m (word :: ws) lines (c :: cs) len
      = if (len : Int) + (word.length + 1) ≤ m then
          wrapAux m ws lines ((c :: cs) ++ [word]) (len + (word.length + 1))
        else
          wrapAux m ws (lines ++ [joinSep [' '] (c :: cs)]) [word] word.length := by
  simp [wrapAux]

lemma wrapAux_bound (m : Int) :
    ∀ (ws lines cur : List Str) (len : Nat),
      (∀ w ∈ ws, (w.length : Int) ≤ m) →
      (∀ l ∈ lines, (l.length : Int) ≤ m) →
      ((len : Int) ≤ m) →
      (len = (joinSep [' '] cur).length) →
      ∀ l ∈ wrapAux m ws lines cur len, (l.length : Int) ≤ m := by
  intro ws
  induction ws with
  | nil =>
    intro lines cur len _ hlines hlen hcur l hl
    rw [wrapAux_nil_words] at hl
    split at hl
    · exact hlines l hl
    · rcases List.mem_append.mp hl with h | h
      · exact hlines l h
      · simp only [List.mem_singleton] at h
        subst h
        rw [← hcur]
        exact hlen
  | cons word ws ih =>
    intro lines cur len hws hlines hlen hcur l hl
    have hword : (word.length : Int) ≤ m := hws word (List.mem_cons_self word ws)
    have hws' : ∀ w ∈ ws, (w.length : Int) ≤ m := fun w hw => hws w (List.mem_cons_of_mem _ hw)
    cases cur with
    | nil =>
      have hlen0 : len = 0 := by simpa [joinSep] using hcur
      rw [wrapAux_cons_empty] at hl
      split at hl
      · next hle =>
        refine ih lines [word] _ hws' hlines ?_ (by simp [joinSep, hlen0]) l hl
        push_cast at hle ⊢
        omega
      · exact ih lines [word] _ hws' hlines hword (by simp [joinSep]) l hl
    | cons c cs =>
      rw [wrapAux_cons_nonempty] at hl
      split at hl
      · next hle =>
        refine ih lines ((c :: cs) ++ [word]) _ hws' hlines ?_ ?_ l hl
        · push_cast at hle ⊢
          omega
        · rw [joinSep_length_append, ← hcur]
          simp
      · refine ih (lines ++ [joinSep [' '] (c :: cs)]) [word] _ hws' ?_ hword
          (by simp [joinSep]) l hl
        intro l' hl'
        rcases List.mem_append.mp hl' with h | h
        · exact hlines l' h
        · simp only [List.mem_singleton] at h
          subst h
          rw [← hcur]
          exact hlen

lemma wordsAux_no_ws (w : Str) (hw : ∀ c ∈ w, isWS c = false) :
    ∀ (s acc : Str), wordsAux (w ++ s) acc = wordsAux s (acc ++ w) := by
  induction w with
  | nil => intro s acc; simp
  | cons c w ih =>
    intro s acc
    have hc : isWS c = false := hw c (List.mem_cons_self c w)
    have hw' : ∀ c' ∈ w, isWS c' = false := fun c' h => hw c' (List.mem_cons_of_mem _ h)
    show wordsAux (c :: (w ++ s)) acc = _
    rw [wordsAux, if_neg (by simp [hc]), ih hw' s (acc ++ [c])]
    simp

lemma wordsAux_append_space (b : Str) :
    ∀ (a acc : Str), wordsAux (a ++ ' ' :: b) acc = wordsAux a acc ++ wordsAux b [] := by
  intro a
  induction a with
  | nil =>
    intro acc
    have hws : isWS ' ' = true := by decide
    show wordsAux (' ' :: b) acc = wordsAux [] acc ++ wordsAux b []
    simp only [wordsAux, hws, if_true]
  | cons c a ih =>
    intro acc
    show wordsAux (c :: (a ++ ' ' :: b)) acc = wordsAux (c :: a) acc ++ wordsAux b []
    rw [wordsAux, wordsAux]
    by_cases hc : isWS c = true
    · rw [if_pos hc, if_pos hc, ih, List.append_assoc]
    · rw [if_neg hc, if_neg hc, ih]

lemma pySplit_append_space (a b : Str) :
    pySplit (a ++ ' ' :: b) = pySplit a ++ pySplit b :=
  wordsAux_append_space b a []

lemma pySplit_single_word (w : Str) (hne : w ≠ []) (hw : ∀ c ∈ w, isWS c = false) :
    pySplit w = [w] := by
  have h := wordsAux_no_ws w hw [] []
  simp only [List.append_nil, List.nil_append] at h
  unfold pySplit
  rw [h, wordsAux, if_neg (by simp [hne])]

lemma pySplit_joinSpace : ∀ (ws : List Str), (∀ w ∈ ws, cleanWord w) →
    pySplit (joinSep [' '] ws) = ws := by
  intro ws
  induction ws with
  | nil => intro _; rfl
  | cons w tail ih =>
    intro h
    have hw := h w (List.mem_cons_self w tail)
    have htail : ∀ w' ∈ tail, cleanWord w' := fun w' h' => h w' (List.mem_cons_of_mem _ h')
    cases tail with
    | nil => exact pySplit_single_word w hw.1 hw.2
    | cons x rest =>
      show pySplit (w ++ [' '] ++ joinSep [' '] (x :: rest)) = _
      rw [List.append_assoc, List.singleton_append, pySplit_append_space,
        pySplit_single_word w hw.1 hw.2, ih htail]
      rfl

lemma pySplit_joinSpace_append (lines : List Str) (l : Str) :
    pySplit (joinSep [' '] (lines ++ [l]))
      = pySplit (joinSep [' '] lines) ++ pySplit l := by
  rw [joinSep_append_singleton]
  cases lines with
  | nil => rfl
  | cons x rest =>
    simp only [List.isEmpty_cons, Bool.false_eq_true, if_false]
    rw [List.append_assoc, List.singleton_append, pySplit_append_space]

lemma wordsAux_clean : ∀ (s acc : Str), (∀ c ∈ acc, isWS c = false) →
    ∀ w ∈ wordsAux s acc, cleanWord w := by
  intro s
  induction s with
  | nil =>
    intro acc hacc w hw
    rw [wordsAux] at hw
    split at hw
    · exact absurd hw (List.not_mem_nil w)
    · next hne =>
      simp only [List.mem_singleton] at hw
      subst hw
      exact ⟨by simpa using hne, hacc⟩
  | cons c cs ih =>
    intro acc hacc w hw
    rw [wordsAux] at hw
    split at hw
    · rcases List.mem_append.mp hw with h | h
      · split at h
        · exact absurd h (List.not_mem_nil w)
        · next hne =>
          simp only [List.mem_singleton] at h
          subst h
          exact ⟨by simpa using hne, hacc⟩
      · exact ih [] (by intro c' h'; exact absurd h' (List.not_mem_nil c')) w h
    · next hc =>
      refine ih (acc ++ [c]) ?_ w hw
      intro c' h'
      rcases List.mem_append.mp h' with h | h
      · exact hacc c' h
      · simp only [List.mem_singleton] at h
        subst h
        simpa using hc

lemma pySplit_clean (s : Str) : ∀ w ∈ pySplit s, cleanWord w :=
  wordsAux_clean s [] (by intro c h; exact absurd h (List.not_mem_nil c))

lemma wrapAux_words (m : Int) :
    ∀ (ws lines cur : List Str) (len : Nat),
      (∀ w ∈ ws, cleanWord w) → (∀ w ∈ cur, cleanWord w) →
      pySplit (joinSep [' '] (wrapAux m ws lines cur len))
        = pySplit (joinSep [' '] lines) ++ cur ++ ws := by
  intro ws
  induction ws with
  | nil =>
    intro lines cur len _ hcur
    rw [wrapAux_nil_words]
    cases cur with
    | nil => simp
    | cons c cs =>
      simp only [List.isEmpty_cons, Bool.false_eq_true, if_false]
      rw [pySplit_joinSpace_append, pySplit_joinSpace (c :: cs) hcur]
      simp
  | cons word ws ih =>
    intro lines cur len hws hcur
    have hword : cleanWord word := hws word (List.mem_cons_self word ws)
    have hws' : ∀ w ∈ ws, cleanWord w := fun w h => hws w (List.mem_cons_of_mem _ h)
    cases cur with
    | nil =>
      rw [wrapAux_cons_empty]
      split
      · rw [ih lines [word] (len + word.length) hws' (by simpa using hword)]
        simp
      · rw [ih lines [word] word.length hws' (by simpa using hword)]
        simp
    | cons c cs =>
      rw [wrapAux_cons_nonempty]
      split
      · have hcur' : ∀ w ∈ (c :: cs) ++ [word], cleanWord w := by
          intro w hw
          rcases List.mem_append.mp hw with h | h
          · exact hcur w h
          · simp only [List.mem_singleton] at h
            subst h
            exact hword
        rw [ih lines ((c :: cs) ++ [word]) (len + (word.length + 1)) hws' hcur']
        simp
      · rw [ih (lines ++ [joinSep [' '] (c :: cs)]) [word] word.length hws'
          (by simpa using hword)]
        rw [pySplit_joinSpace_append, pySplit_joinSpace (c :: cs) hcur]
        simp

lemma wrapAux_mem_lines (m : Int) :
    ∀ (ws lines cur : List Str) (len : Nat) (l : Str),
      l ∈ lines → l ∈ wrapAux m ws lines cur len := by
  intro ws
  induction ws with
  | nil =>
    intro lines cur len l hl
    rw [wrapAux_nil_words]
    split
    · exact hl
    · exact List.mem_append.mpr (Or.inl hl)
  | cons word ws ih =>
    intro lines cur len l hl
    cases cur with
    | nil =>
      rw [wrapAux_cons_empty]
      split
      · exact ih lines [word] _ l hl
      · exact ih lines [word] _ l hl
    | cons c cs =>
      rw [wrapAux_cons_nonempty]
      split
      · exact ih lines _ _ l hl
      · exact ih (lines ++ [joinSep [' '] (c :: cs)]) [word] _ l
          (List.mem_append.mpr (Or.inl hl))

lemma wrapAux_long_word (m : Int) (w : Str) (hw : (w.length : Int) > m) :
    ∀ (ws lines cur : List Str) (len : Nat),
      (w ∈ ws ∨ (cur = [w] ∧ (len : Int) > m)) →
      w ∈ wrapAux m ws lines cur len := by
  intro ws
  induction ws with
  | nil =>
    intro lines cur len h
    rcases h with h | ⟨hcur, _⟩
    · exact absurd h (List.not_mem_nil w)
    · subst hcur
      rw [wrapAux_nil_words]
      simp [joinSep]
  | cons word ws ih =>
    intro lines cur len h
    rcases h with h | ⟨hcur, hlen⟩
    · rcases List.mem_cons.mp h with heq | hmem
      · subst heq
        cases cur with
        | nil =>
          rw [wrapAux_cons_empty, if_neg (by omega)]
          exact ih lines [w] w.length (Or.inr ⟨rfl, hw⟩)
        | cons c cs =>
          rw [wrapAux_cons_nonempty, if_neg (by omega)]
          exact ih (lines ++ [joinSep [' '] (c :: cs)]) [w] w.length (Or.inr ⟨rfl, hw⟩)
      · cases cur with
        | nil =>
          rw [wrapAux_cons_empty]
          split
          · exact ih lines [word] _ (Or.inl hmem)
          · exact ih lines [word] _ (Or.inl hmem)
        | cons c cs =>
          rw [wrapAux_cons_nonempty]
          split
          · exact ih lines _ _ (Or.inl hmem)
          · exact ih (lines ++ [joinSep [' '] (c :: cs)]) [word] _ (Or.inl hmem)
    · subst hcur
      rw [wrapAux_cons_nonempty, if_neg (by omega)]
      refine wrapAux_mem_lines m ws _ [word] word.length w ?_
      simp [joinSep]

lemma pySplit_nil : pySplit [] = [] := rfl

lemma wordsAux_all_ws : ∀ (s : Str), (∀ c ∈ s, isWS c = true) → wordsAux s [] = [] := by
  intro s
  induction s with
  | nil => intro _; rfl
  | cons c cs ih =>
    intro h
    have hc : isWS c = true := h c (List.mem_cons_self c cs)
    simp only [wordsAux, hc, if_true, List.isEmpty_nil, List.nil_append]
    exact ih (fun c' h' => h c' (List.mem_cons_of_mem _ h'))

lemma quoteLoop_fst_length : ∀ (y : Nat) (ls : List Str),
    ((quoteLoop y ls).1).length = ls.length := by
  intro y ls
  induction ls generalizing y with
  | nil => rfl
  | cons l ls ih => simp [quoteLoop, ih]

lemma quoteLoop_snd : ∀ (y : Nat) (ls : List Str),
    (quoteLoop y ls).2 = y + SVG_LINE_HEIGHT * ls.length := by
  intro y ls
  induction ls generalizing y with
  | nil => simp [quoteLoop]
  | cons l ls ih =>
    simp only [quoteLoop, ih (y + SVG_LINE_HEIGHT), List.length_cons]
    ring

lemma quoteLoop_fst_getElem? : ∀ (y : Nat) (ls : List Str) (i : Nat),
    ((quoteLoop y ls).1)[i]?
      = Option.map (fun l => quoteLineElem (y + SVG_LINE_HEIGHT * i) l) ls[i]? := by
  intro y ls
  induction ls generalizing y with
  | nil => intro i; simp [quoteLoop]
  | cons l ls ih =>
    intro i
    cases i with
    | zero => simp [quoteLoop]
    | succ n =>
      have harith : y + SVG_LINE_HEIGHT + SVG_LINE_HEIGHT * n
          = y + SVG_LINE_HEIGHT * (n + 1) := by ring
      simp only [quoteLoop, List.getElem?_cons_succ, ih (y + SVG_LINE_HEIGHT) n, harith]

lemma quoteLoop_fst_mapIdx : ∀ (y : Nat) (ls : List Str),
    (quoteLoop y ls).1
      = ls.mapIdx (fun i l => quoteLineElem (y + SVG_LINE_HEIGHT * i) l) := by
  intro y ls
  induction ls generalizing y with
  | nil => rfl
  | cons l ls ih =>
    have h0 : y + SVG_LINE_HEIGHT * 0 = y := by ring
    have hf : (fun i l => quoteLineElem (y + SVG_LINE_HEIGHT * (i + 1)) l)
        = (fun i l => quoteLineElem (y + SVG_LINE_HEIGHT + SVG_LINE_HEIGHT * i) l) := by
      funext i l
      congr 1
      ring
    simp only [quoteLoop, List.mapIdx_cons, h0, hf, ih (y + SVG_LINE_HEIGHT)]

lemma quoteLoop_fst_mem : ∀ (y : Nat) (ls : List Str) (p : Str),
    p ∈ (quoteLoop y ls).1 → ∃ y' l, l ∈ ls ∧ p = quoteLineElem y' l := by
  intro y ls
  induction ls generalizing y with
  | nil => intro p hp; exact absurd hp (List.not_mem_nil p)
  | cons l ls ih =>
    intro p hp
    simp only [quoteLoop] at hp
    rcases List.mem_cons.mp hp with h | h
    · exact ⟨y, l, List.mem_cons_self l ls, h⟩
    · obtain ⟨y', l', hl', hp'⟩ := ih (y + SVG_LINE_HEIGHT) p h
      exact ⟨y', l', List.mem_cons_of_mem _ hl', hp'⟩

lemma isTextElem_quoteLineElem (y : Nat) (line : Str) :
    isTextElem (quoteLineElem y line) = true := rfl

lemma isTextElem_authorElem (y : Nat) (author : Str) :
    isTextElem (authorElem y author) = true := rfl

lemma isTextElem_rootElem (h : Nat) :
    isTextElem (("<svg width=\"").data ++ natStr SVG_WIDTH ++ ("\" height=\"").data
      ++ natStr h ++ ("\" xmlns=\"http://www.w3.org/2000/svg\">").data) = false := rfl

lemma isTextElem_rectElem (h : Nat) :
    isTextElem (("  <rect width=\"").data ++ natStr SVG_WIDTH ++ ("\" height=\"").data
      ++ natStr h ++ ("\" fill=\"none\"/>").data) = false := rfl

lemma isTextElem_gOpen : isTextElem (("  <g>").data) = false := rfl

lemma isTextElem_gClose : isTextElem (("  </g>").data) = false := rfl

lemma isTextElem_svgClose : isTextElem (("</svg>").data) = false := rfl

lemma startsWith_append_both : ∀ (p u v : Str), startsWith u v = true →
    startsWith (p ++ u) (p ++ v) = true := by
  intro p
  induction p with
  | nil => intro u v h; exact h
  | cons c cs ih =>
    intro u v h
    show startsWith (c :: (cs ++ u)) (c :: (cs ++ v)) = true
    simp only [startsWith, Bool.and_eq_true, beq_self_eq_true]
    exact ⟨trivial, ih u v h⟩

lemma containsStr_cons (pat : Str) (c : Char) (cs : Str) :
    containsStr pat (c :: cs) = (startsWith pat (c :: cs) || containsStr pat cs) := rfl

lemma containsStr_of_startsWith : ∀ (u pat s : Str), startsWith pat s = true →
    containsStr pat (u ++ s) = true := by
  intro u
  induction u with
  | nil =>
    intro pat s h
    cases s with
    | nil =>
      cases pat with
      | nil => rfl
      | cons p ps => cases h
    | cons c cs =>
      show (startsWith pat (c :: cs) || containsStr pat cs) = true
      simp [h]
  | cons a as ih =>
    intro pat s h
    show (startsWith pat (a :: (as ++ s)) || containsStr pat (as ++ s)) = true
    simp [ih pat s h]

lemma containsStr_height (N R : Str) :
    containsStr (("height=\"").data ++ N ++ ("\"").data)
      ((("<svg width=\"").data ++ natStr SVG_WIDTH ++ ("\" height=\"").data ++ N
          ++ ("\" xmlns=\"http://www.w3.org/2000/svg\">").data) ++ R) = true := by
  have hre : (("<svg width=\"").data ++ natStr SVG_WIDTH ++ ("\" height=\"").data ++ N
      ++ ("\" xmlns=\"http://www.w3.org/2000/svg\">").data) ++ R
      = ("<svg width=\"700\" ").data
        ++ (("height=\"").data ++ N
            ++ (("\" xmlns=\"http://www.w3.org/2000/svg\">").data ++ R)) := by
    simp only [List.append_assoc]
    rfl
  rw [hre]
  apply containsStr_of_startsWith
  exact startsWith_append_both (("height=\"").data ++ N) (("\"").data)
    ((("\" xmlns=\"http://www.w3.org/2000/svg\">").data ++ R)) rfl

lemma containsStr_generate_height (q a : Str) :
    containsStr (("height=\"").data
        ++ natStr ((wrap_text q MAX_LINE_LENGTH).length * SVG_LINE_HEIGHT + 60
            + SVG_PADDING * 2) ++ ("\"").data)
      (generate_quote_svg q a) = true := by
  unfold generate_quote_svg svg_parts
  simp only [List.cons_append, List.nil_append]
  rw [joinSep, List.append_assoc]
  exact containsStr_height _ _

/-- C1: for all non-empty text and every positive max_length at least the length
of the longest whitespace-delimited word of the text, every line produced by
`wrap_text text max_length` has length at most `max_length`. -/
theorem C1_wrap_lines_within_budget (text : Str) (max_length : Int)
    (ht : text ≠ []) (hm : 0 < max_length)
    (hw : ∀ w ∈ pySplit text, (w.length : Int) ≤ max_length) :
    ∀ l ∈ wrap_text text max_length, (l.length : Int) ≤ max_length :=
  wrapAux_bound max_length (pySplit text) [] [] 0 hw
    (fun l h => absurd h (List.not_mem_nil l))
    (by exact_mod_cast hm.le) (by simp [joinSep])

/-- Witness for C1 at the text "the quick brown fox jumps" with budget 10. -/
theorem C1_wrap_lines_within_budget_witness :
    ((("the quick").data).length : Int) ≤ 10 :=
  C1_wrap_lines_within_budget ("the quick brown fox jumps").data 10 (by decide)
    (by decide) (by decide) ("the quick").data (by decide)

/-- C2: joining the lines of `wrap_text text max_length` with single spaces and
re-splitting on whitespace recovers exactly the word sequence of the original
text, for every text and positive max_length. -/
theorem C2_join_split_roundtrip (text : Str) (max_length : Int)
    (hm : 0 < max_length) :
    pySplit (joinSep [' '] (wrap_text text max_length)) = pySplit text := by
  have h := wrapAux_words max_length (pySplit text) [] [] 0 (pySplit_clean text)
    (fun w hw => absurd hw (List.not_mem_nil w))
  simpa [joinSep, pySplit_nil] using h

/-- Witness for C2 at the text "the quick brown fox jumps" with budget 10. -/
theorem C2_join_split_roundtrip_witness :
    pySplit (joinSep [' '] (wrap_text ("the quick brown fox jumps").data 10))
      = pySplit ("the quick brown fox jumps").data :=
  C2_join_split_roundtrip ("the quick brown fox jumps").data 10 (by decide)

/-- C6: a whitespace-delimited word strictly longer than the budget is never
split: it appears unsplit as a line of its own in the output; in particular
`wrap_text "supercalifragilisticexpialidocious" 10` is that single word. -/
theorem C6_long_word_unsplit :
    (∀ (text : Str) (max_length : Int) (w : Str),
        w ∈ pySplit text → (w.length : Int) > max_length →
        w ∈ wrap_text text max_length)
    ∧ wrap_text ("supercalifragilisticexpialidocious").data 10
        = [("supercalifragilisticexpialidocious").data] := by
  refine ⟨fun text m w hmem hlen =>
    wrapAux_long_word m w hlen (pySplit text) [] [] 0 (Or.inl hmem), ?_⟩
  decide

/-- Witness for C6: the 34-character word with budget 10 is a line of the output. -/
theorem C6_long_word_unsplit_witness :
    ("supercalifragilisticexpialidocious").data
      ∈ wrap_text ("supercalifragilisticexpialidocious").data 10 :=
  C6_long_word_unsplit.1 ("supercalifragilisticexpialidocious").data 10
    ("supercalifragilisticexpialidocious").data (by decide) (by decide)

/-- C7: empty input text yields the empty line sequence for every positive
budget, and more generally so does any all-whitespace text (for any budget). -/
theorem C7_empty_text_empty_output :
    (∀ max_length : Int, 0 < max_length → wrap_text [] max_length = [])
    ∧ (∀ (text : Str) (max_length : Int), (∀ c ∈ text, isWS c = true) →
        wrap_text text max_length = []) := by
  refine ⟨fun m _ => rfl, fun t m h => ?_⟩
  unfold wrap_text pySplit
  rw [wordsAux_all_ws t h]
  rfl

/-- Witness for C7 at an all-whitespace text with budget 7. -/
theorem C7_empty_text_empty_output_witness :
    wrap_text (" \t ").data 7 = [] :=
  C7_empty_text_empty_output.2 (" \t ").data 7 (by decide)

/-- C8: `generate_quote_svg` and `wrap_text` are deterministic: equal inputs
give identical outputs. -/
theorem C8_deterministic :
    (∀ (q a q' a' : Str), q = q' → a = a' →
        generate_quote_svg q a = generate_quote_svg q' a')
    ∧ (∀ (t t' : Str) (m m' : Int), t = t' → m = m' →
        wrap_text t m = wrap_text t' m') := by
  exact ⟨fun q a q' a' hq ha => by rw [hq, ha], fun t t' m m' ht hm => by rw [ht, hm]⟩

/-- Witness for C8 at a concrete quote and author. -/
theorem C8_deterministic_witness :
    generate_quote_svg ("hi").data ("bob").data
      = generate_quote_svg ("hi").data ("bob").data :=
  C8_deterministic.1 ("hi").data ("bob").data ("hi").data ("bob").data rfl rfl

/-- C3: the root element of the generated document carries a height attribute
whose value is exactly 20 * (number of lines of wrap_text at width 80) + 100,
and that attribute occurs in the string returned by generate_quote_svg. -/
theorem C3_height_formula (quote_text author : Str) :
    (svg_parts quote_text author)[0]?
      = some (("<svg width=\"700\" height=\"").data
          ++ natStr (20 * (wrap_text quote_text 80).length + 100)
          ++ ("\" xmlns=\"http://www.w3.org/2000/svg\">").data)
    ∧ containsStr (("height=\"").data
          ++ natStr (20 * (wrap_text quote_text 80).length + 100) ++ ("\"").data)
        (generate_quote_svg quote_text author) = true := by
  have hh : (wrap_text quote_text MAX_LINE_LENGTH).length * SVG_LINE_HEIGHT + 60
      + SVG_PADDING * 2 = 20 * (wrap_text quote_text 80).length + 100 := by
    show (wrap_text quote_text 80).length * SVG_LINE_HEIGHT + 60 + SVG_PADDING * 2 = _
    simp only [SVG_LINE_HEIGHT, SVG_PADDING]
    omega
  constructor
  · rw [← hh]
    rfl
  · rw [← hh]
    exact containsStr_generate_height quote_text author

/-- C10: the number of text elements among the SVG parts is the number of
wrapped lines plus one, and for all-whitespace quote text the root element
carries height 100 and exactly one text element (the attribution) remains. -/
theorem C10_text_element_count (quote_text author : Str) :
    (svg_parts quote_text author).countP isTextElem
        = (wrap_text quote_text 80).length + 1
    ∧ ((∀ c ∈ quote_text, isWS c = true) →
        (svg_parts quote_text author)[0]?
            = some (("<svg width=\"700\" height=\"100\" xmlns=\"http://www.w3.org/2000/svg\">").data)
          ∧ (svg_parts quote_text author).countP isTextElem = 1) := by
  have hloop : ∀ p ∈ (quoteLoop (SVG_PADDING + 25) (wrap_text quote_text MAX_LINE_LENGTH)).1,
      isTextElem p = true := by
    intro p hp
    obtain ⟨y', l', _, hp'⟩ := quoteLoop_fst_mem _ _ p hp
    rw [hp']
    exact isTextElem_quoteLineElem _ _
  have hcount : (svg_parts quote_text author).countP isTextElem
      = (wrap_text quote_text MAX_LINE_LENGTH).length + 1 := by
    unfold svg_parts
    rw [List.countP_append, List.countP_append, List.countP_append,
      List.countP_eq_length.mpr hloop, quoteLoop_fst_length]
    show 0 + (wrap_text quote_text MAX_LINE_LENGTH).length + 1 + 0 = _
    omega
  refine ⟨hcount, fun h => ?_⟩
  have hlines : wrap_text quote_text MAX_LINE_LENGTH = [] := by
    unfold wrap_text pySplit
    rw [wordsAux_all_ws quote_text h]
    rfl
  constructor
  · unfold svg_parts
    rw [hlines]
    rfl
  · rw [hcount, hlines]
    rfl

lemma svg_parts_eq (q a : Str) :
    svg_parts q a
      = (("<svg width=\"").data ++ natStr SVG_WIDTH ++ ("\" height=\"").data
            ++ natStr ((wrap_text q MAX_LINE_LENGTH).length * SVG_LINE_HEIGHT + 60
                + SVG_PADDING * 2)
            ++ ("\" xmlns=\"http://www.w3.org/2000/svg\">").data)
        :: (("  <rect width=\"").data ++ natStr SVG_WIDTH ++ ("\" height=\"").data
            ++ natStr ((wrap_text q MAX_LINE_LENGTH).length * SVG_LINE_HEIGHT + 60
                + SVG_PADDING * 2)
            ++ ("\" fill=\"none\"/>").data)
        :: ("  <g>").data
        :: ((quoteLoop (SVG_PADDING + 25) (wrap_text q MAX_LINE_LENGTH)).1
            ++ ([authorElem
                  ((quoteLoop (SVG_PADDING + 25) (wrap_text q MAX_LINE_LENGTH)).2 + 20) a]
                ++ [("  </g>").data, ("</svg>").data])) := by
  unfold svg_parts
  simp only [List.cons_append, List.nil_append, List.append_assoc]

/-- C4 counterexample: for the quote "hi" (one wrapped line, baseline 45) the
attribution row is emitted at y = 85, which is 40 — not 20 — units below the
last quote line's baseline at 45 (20 below would be y = 65). -/
theorem C4_attribution_offset_counterexample :
    (svg_parts ("hi").data ("x").data)[3]?
        = some (quoteLineElem 45 ("hi").data)
    ∧ (svg_parts ("hi").data ("x").data)[4]?
        = some (authorElem 85 ("x").data)
    ∧ authorElem 85 ("x").data ≠ authorElem (45 + 20) ("x").data := by
  refine ⟨by decide, by decide, by decide⟩

/-- C4 (amended): quote rows are positioned starting at padding + 25 = 45 and
advance by the fixed line height 20 per line; the attribution row is positioned
at 45 + 20 * (number of lines) + 20, which is 40 units (two line heights) below
the last quote line's baseline, not 20. -/
theorem C4_row_positions (quote_text author : Str) :
    (∀ i : Nat, i < (wrap_text quote_text 80).length →
        (svg_parts quote_text author)[3 + i]?
          = Option.map (fun l => quoteLineElem (SVG_PADDING + 25 + SVG_LINE_HEIGHT * i) l)
              (wrap_text quote_text 80)[i]?)
    ∧ (svg_parts quote_text author)[3 + (wrap_text quote_text 80).length]?
        = some (authorElem
            (SVG_PADDING + 25 + SVG_LINE_HEIGHT * (wrap_text quote_text 80).length + 20)
            author)
    ∧ (∀ n : Nat, 0 < n →
        SVG_PADDING + 25 + SVG_LINE_HEIGHT * n + 20
          = SVG_PADDING + 25 + SVG_LINE_HEIGHT * (n - 1) + 40) := by
  have hml : wrap_text quote_text 80 = wrap_text quote_text MAX_LINE_LENGTH := rfl
  rw [hml]
  refine ⟨?_, ?_, ?_⟩
  · intro i hi
    have hidx : 3 + i = i + 1 + 1 + 1 := by omega
    rw [hidx, svg_parts_eq]
    rw [List.getElem?_cons_succ, List.getElem?_cons_succ, List.getElem?_cons_succ,
      List.getElem?_append_left (by rw [quoteLoop_fst_length]; exact hi),
      quoteLoop_fst_getElem?]
  · have hidx : 3 + (wrap_text quote_text MAX_LINE_LENGTH).length
        = (wrap_text quote_text MAX_LINE_LENGTH).length + 1 + 1 + 1 := by omega
    rw [hidx, svg_parts_eq]
    rw [List.getElem?_cons_succ, List.getElem?_cons_succ, List.getElem?_cons_succ,
      List.getElem?_append_right (by rw [quoteLoop_fst_length]),
      quoteLoop_fst_length, Nat.sub_self, quoteLoop_snd]
    rfl
  · intro n hn
    simp only [SVG_PADDING, SVG_LINE_HEIGHT]
    cases n with
    | zero => exact absurd hn (by omega)
    | succ k =>
      simp only [Nat.succ_sub_one]
      ring

/-- Witness for C4 at the quote "hi" with author "x", first quote row. -/
theorem C4_row_positions_witness :
    (svg_parts ("hi").data ("x").data)[3 + 0]?
      = Option.map (fun l => quoteLineElem (SVG_PADDING + 25 + SVG_LINE_HEIGHT * 0) l)
          (wrap_text ("hi").data 80)[0]? :=
  (C4_row_positions ("hi").data ("x").data).1 0 (by decide)

/-- Witness for C10 at an all-whitespace quote with author "x". -/
theorem C10_text_element_count_witness :
    (svg_parts (" ").data ("x").data)[0]?
        = some (("<svg width=\"700\" height=\"100\" xmlns=\"http://www.w3.org/2000/svg\">").data)
      ∧ (svg_parts (" ").data ("x").data).countP isTextElem = 1 :=
  (C10_text_element_count (" ").data ("x").data).2 (by decide)

/-- C5: the generated document is the newline join of: a root element with fixed
width 700 and the computed height, one grouping element, one centered italic
font-16 text row per wrapped line (content wrapped in double quotes) in order,
one final centered non-italic font-14 text row with an em-dash and the author,
and the closing tags; for the Guido van Rossum example there is exactly one
quote row and exactly one attribution row reading the em-dash and the author. -/
theorem C5_document_format (quote_text author : Str) :
    (svg_parts quote_text author
      = [("<svg width=\"700\" height=\"").data
            ++ natStr (20 * (wrap_text quote_text 80).length + 100)
            ++ ("\" xmlns=\"http://www.w3.org/2000/svg\">").data,
          ("  <rect width=\"700\" height=\"").data
            ++ natStr (20 * (wrap_text quote_text 80).length + 100)
            ++ ("\" fill=\"none\"/>").data,
          ("  <g>").data]
        ++ (wrap_text quote_text 80).mapIdx (fun i line =>
            ("    <text x=\"50%\" y=\"").data ++ natStr (45 + 20 * i)
              ++ ("\" font-family=\"'Segoe UI', 'Helvetica', 'Arial', sans-serif\" font-size=\"16\" fill=\"#586069\" text-anchor=\"middle\" font-style=\"italic\">\"").data
              ++ line ++ ("\"</text>").data)
        ++ [("    <text x=\"50%\" y=\"").data
              ++ natStr (45 + 20 * (wrap_text quote_text 80).length + 20)
              ++ ("\" font-family=\"'Segoe UI', 'Helvetica', 'Arial', sans-serif\" font-size=\"14\" fill=\"#6a737d\" text-anchor=\"middle\">— ").data
              ++ author ++ ("</text>").data]
        ++ [("  </g>").data, ("</svg>").data])
    ∧ wrap_text ("Code is read more often than written.").data 80
        = [("Code is read more often than written.").data]
    ∧ (svg_parts ("Code is read more often than written.").data
          ("Guido van Rossum").data).countP
        (fun p => containsStr (("— Guido van Rossum").data) p) = 1
    ∧ (svg_parts ("Code is read more often than written.").data
          ("Guido van Rossum").data).countP
        (fun p => containsStr (("\"Code is read more often than written.\"").data) p)
          = 1 := by
  refine ⟨?_, by decide, by decide, by decide⟩
  have hml : wrap_text quote_text 80 = wrap_text quote_text MAX_LINE_LENGTH := rfl
  have hh : (wrap_text quote_text MAX_LINE_LENGTH).length * SVG_LINE_HEIGHT + 60
      + SVG_PADDING * 2 = 20 * (wrap_text quote_text MAX_LINE_LENGTH).length + 100 := by
    simp only [SVG_LINE_HEIGHT, SVG_PADDING]
    omega
  rw [hml, svg_parts_eq, quoteLoop_fst_mapIdx, quoteLoop_snd, hh]
  simp only [quoteLineElem, authorElem, List.cons_append, List.nil_append,
    List.append_assoc]
  rfl

lemma chain'_noTwoSpaces_of_clean (w : Str) (hw : ∀ c ∈ w, isWS c = false) :
    w.Chain' (fun a b => ¬(a = ' ' ∧ b = ' ')) := by
  induction w with
  | nil => exact List.chain'_nil
  | cons c cs ih =>
    rw [List.chain'_cons']
    refine ⟨fun b _ hab => ?_, ih (fun c' h' => hw c' (List.mem_cons_of_mem _ h'))⟩
    have hc := hw c (List.mem_cons_self c cs)
    rw [hab.1] at hc
    simp [isWS] at hc

lemma joinSep_clean_props : ∀ (g : List Str), g ≠ [] → (∀ w ∈ g, cleanWord w) →
    joinSep [' '] g ≠ []
    ∧ (∀ c, (joinSep [' '] g).head? = some c → isWS c = false)
    ∧ (∀ c, (joinSep [' '] g).getLast? = some c → isWS c = false)
    ∧ (joinSep [' '] g).Chain' (fun a b => ¬(a = ' ' ∧ b = ' ')) := by
  intro g
  induction g with
  | nil => intro h; exact absurd rfl h
  | cons w tail ih =>
    intro _ h
    have hw := h w (List.mem_cons_self w tail)
    have htail : ∀ w' ∈ tail, cleanWord w' := fun w' h' => h w' (List.mem_cons_of_mem _ h')
    cases tail with
    | nil =>
      refine ⟨hw.1, fun c hc => hw.2 c (List.mem_of_mem_head? hc),
        fun c hc => hw.2 c (List.mem_of_mem_getLast? hc),
        chain'_noTwoSpaces_of_clean w hw.2⟩
    | cons x rest =>
      obtain ⟨hne, hhead, hlast, hchain⟩ := ih (by simp) htail
      have hshape : joinSep [' '] (w :: x :: rest)
          = w ++ (' ' :: joinSep [' '] (x :: rest)) := by
        show w ++ [' '] ++ joinSep [' '] (x :: rest) = _
        rw [List.append_assoc]
        rfl
      rw [hshape]
      refine ⟨by simp, ?_, ?_, ?_⟩
      · intro c hc
        rw [List.head?_append_of_ne_nil _ hw.1] at hc
        exact hw.2 c (List.mem_of_mem_head? hc)
      · intro c hc
        rw [List.getLast?_append_of_ne_nil w (by simp)] at hc
        have hc' : (joinSep [' '] (x :: rest)).getLast? = some c := by
          cases hjl : joinSep [' '] (x :: rest) with
          | nil => exact absurd hjl hne
          | cons j js =>
            rw [hjl] at hc
            rw [show (' ' :: j :: js).getLast? = (j :: js).getLast? from rfl] at hc
            exact hc
        exact hlast c hc'
      · rw [List.chain'_append]
        refine ⟨chain'_noTwoSpaces_of_clean w hw.2, ?_, ?_⟩
        · rw [List.chain'_cons']
          refine ⟨fun b hb hab => ?_, hchain⟩
          have := hhead b hb
          rw [hab.2] at this
          simp [isWS] at this
        · intro a ha b hb
          intro hab
          have haw := hw.2 a (List.mem_of_mem_getLast? ha)
          rw [hab.1] at haw
          simp [isWS] at haw

lemma wrapAux_lines_shape (m : Int) (P : Str → Prop) :
    ∀ (ws lines cur : List Str) (len : Nat),
      (∀ w ∈ ws, P w) → (∀ w ∈ cur, P w) →
      (∀ l ∈ lines, ∃ g, g ≠ [] ∧ (∀ w ∈ g, P w) ∧ l = joinSep [' '] g) →
      ∀ l ∈ wrapAux m ws lines cur len,
        ∃ g, g ≠ [] ∧ (∀ w ∈ g, P w) ∧ l = joinSep [' '] g := by
  intro ws
  induction ws with
  | nil =>
    intro lines cur len _ hcur hlines l hl
    rw [wrapAux_nil_words] at hl
    cases cur with
    | nil => exact hlines l (by simpa using hl)
    | cons c cs =>
      simp only [List.isEmpty_cons, Bool.false_eq_true, if_false] at hl
      rcases List.mem_append.mp hl with h | h
      · exact hlines l h
      · simp only [List.mem_singleton] at h
        exact ⟨c :: cs, by simp, hcur, h⟩
  | cons word ws ih =>
    intro lines cur len hws hcur hlines l hl
    have hword : P word := hws word (List.mem_cons_self word ws)
    have hws' : ∀ w ∈ ws, P w := fun w h => hws w (List.mem_cons_of_mem _ h)
    cases cur with
    | nil =>
      rw [wrapAux_cons_empty] at hl
      split at hl
      · exact ih lines [word] _ hws' (by simpa using hword) hlines l hl
      · exact ih lines [word] _ hws' (by simpa using hword) hlines l hl
    | cons c cs =>
      rw [wrapAux_cons_nonempty] at hl
      split at hl
      · refine ih lines ((c :: cs) ++ [word]) _ hws' ?_ hlines l hl
        intro w hw
        rcases List.mem_append.mp hw with h | h
        · exact hcur w h
        · simp only [List.mem_singleton] at h
          subst h
          exact hword
      · refine ih (lines ++ [joinSep [' '] (c :: cs)]) [word] _ hws'
          (by simpa using hword) ?_ l hl
        intro l' hl'
        rcases List.mem_append.mp hl' with h | h
        · exact hlines l' h
        · simp only [List.mem_singleton] at h
          exact ⟨c :: cs, by simp, hcur, h⟩

/-- C9: every output line of `wrap_text` is non-empty, starts and ends with a
non-whitespace character, has no two consecutive spaces, and is the single-space
join of a non-empty list of whitespace-delimited words of the input — for every
text and every integer max_length. -/
theorem C9_line_invariants (text : Str) (max_length : Int) :
    ∀ l ∈ wrap_text text max_length,
      l ≠ []
      ∧ (∀ c, l.head? = some c → isWS c = false)
      ∧ (∀ c, l.getLast? = some c → isWS c = false)
      ∧ l.Chain' (fun a b => ¬(a = ' ' ∧ b = ' '))
      ∧ ∃ g, g ≠ [] ∧ (∀ w ∈ g, w ∈ pySplit text) ∧ l = joinSep [' '] g := by
  intro l hl
  obtain ⟨g, hgne, hgP, hgl⟩ :=
    wrapAux_lines_shape max_length (fun w => cleanWord w ∧ w ∈ pySplit text)
      (pySplit text) [] [] 0
      (fun w hw => ⟨pySplit_clean text w hw, hw⟩)
      (fun w hw => absurd hw (List.not_mem_nil w))
      (fun l' hl' => absurd hl' (List.not_mem_nil l')) l hl
  obtain ⟨hne, hhead, hlast, hchain⟩ :=
    joinSep_clean_props g hgne (fun w hw => (hgP w hw).1)
  subst hgl
  exact ⟨hne, hhead, hlast, hchain, g, hgne, fun w hw => (hgP w hw).2, rfl⟩

/-- Witness for C9 at the line "the quick" of the wrapped text
"the quick brown fox jumps" with budget 10. -/
theorem C9_line_invariants_witness :
    ("the quick").data ≠ []
    ∧ (∀ c, (("the quick").data).head? = some c → isWS c = false)
    ∧ (∀ c, (("the quick").data).getLast? = some c → isWS c = false)
    ∧ (("the quick").data).Chain' (fun a b => ¬(a = ' ' ∧ b = ' '))
    ∧ ∃ g, g ≠ [] ∧ (∀ w ∈ g, w ∈ pySplit ("the quick brown fox jumps").data)
        ∧ ("the quick").data = joinSep [' '] g :=
  C9_line_invariants ("the quick brown fox jumps").data 10 ("the quick").data
    (by decide)

end UpdateQuote
